import Mathlib

/-!
Formal model of the music batch converter (`src/main.py`, with the simpler
variant `src/formatter/main.py`).

The program scans one folder, classifies each directory entry by extension,
skips entries whose target already exists in the converted subfolder, copies
`.wav` entries, invokes an external transcoder (`ffmpeg`) for `.flac`/`.aiff`
entries, and accumulates run statistics.

Modelling conventions:
* Filenames and paths are `String`; the Python string operations used by the
  source (`endswith`, `replace`, `[:-1]` slicing, `os.path.basename`,
  `os.path.join`) are embedded below with matching semantics.
* The converted folder's contents are an association list `FS` from target
  filename to a content tag (`Nat`); `os.path.exists` on a target path is a
  lookup in it.  Source-file contents and transcoder outputs are supplied as
  parameters `src out : String → Nat`.
* The external transcoder is a black box: each convertible entry carries the
  event its invocation would produce — an exit code (`subprocess.call`
  returns it), or a `KeyboardInterrupt` raised during the call.  On exit
  code 0 the tool writes the target file; on a non-zero exit it writes
  nothing.  In `src/main.py` the exit code is never inspected by the caller,
  and `subprocess.call` never raises `ffmpeg.Error`, so the
  `except ffmpeg.Error` handler at lines 141-145 is unreachable.
* Directory listings are taken as a single snapshot `listing` used by the
  music-file precheck (line 62), the file count (line 78) and the scan
  (line 89); logging and the interactive prompts are no-ops for the model.
-/

namespace MusicBatch

/-- Python `s.endswith(suf)`: `suf` is a suffix of `s`. -/
def pyEndsWith (s suf : String) : Bool :=
  suf.data.reverse.isPrefixOf s.data.reverse

/-- Python `s.startswith(pre)`. -/
def pyStartsWith (s p : String) : Bool :=
  p.data.isPrefixOf s.data

/-- Replacement of every non-overlapping occurrence of `old` (scanning left to
right) by `new`, on character lists — the semantics of Python `str.replace`
for a non-empty `old`.  The `fuel` argument makes the recursion structural;
every step consumes at least one character, so `fuel = l.length` suffices. -/
def replaceL (old new : List Char) : Nat → List Char → List Char
  | _, [] => []
  | 0, l => l
  | fuel + 1, c :: rest =>
    if old ≠ [] ∧ old.isPrefixOf (c :: rest) then
      new ++ replaceL old new fuel ((c :: rest).drop old.length)
    else
      c :: replaceL old new fuel rest

/-- Python `s.replace(old, new)` for non-empty `old`. -/
def pyReplace (s old new : String) : String :=
  ⟨replaceL old.data new.data s.data.length s.data⟩

/-- Python `music_folder[:-1]` applied when `music_folder.endswith('/')`
(src/main.py lines 67-68): strips exactly one trailing slash, if present. -/
def stripTrailingSlash (p : String) : String :=
  if pyEndsWith p "/" then ⟨p.data.dropLast⟩ else p

/-- `os.path.basename`: the part of the path after the last `'/'`
(empty when the path ends in `'/'`). -/
def basename (p : String) : String :=
  ⟨(p.data.reverse.takeWhile (fun c => !(c == '/'))).reverse⟩

/-- `os.path.join(a, b)` (POSIX, two arguments). -/
def joinPath (a b : String) : String :=
  if pyStartsWith b "/" then b
  else if a = "" || pyEndsWith a "/" then a ++ b
  else a ++ "/" ++ b

/-- Name of the converted subfolder derived from the (already stripped)
input-folder path: `os.path.basename(music_folder) + '_wav'`
(src/main.py line 71). -/
def convFolderName (m : String) : String :=
  basename m ++ "_wav"

/-- Full path of the converted subfolder for a raw input path
(src/main.py lines 67-71): strip one trailing slash, then join the folder
with `<basename>_wav`. -/
def convFolderPath (p : String) : String :=
  joinPath (stripTrailingSlash p) (convFolderName (stripTrailingSlash p))

/-- Target filename of a convertible entry:
`filename.replace('.flac', '.wav')` (src/main.py lines 112, 120). -/
def targetName (f : String) : String :=
  pyReplace f ".flac" ".wav"

/-- Extension test at src/main.py line 62:
`filename.endswith(('.wav', '.flac', '.aiff'))`. -/
def isMusicName (f : String) : Bool :=
  pyEndsWith f ".wav" || pyEndsWith f ".flac" || pyEndsWith f ".aiff"

/-- Name of the target file an entry's processing checks for and produces:
the entry's own name for `.wav` entries (line 93), the `.flac → .wav`
replacement for the others (line 112). -/
def tgtOf (f : String) : String :=
  if pyEndsWith f ".wav" then f else targetName f

/-- Classifier view of an entry, following the branch order of the scan loop
(src/main.py lines 90, 107): `.wav` → passthrough, `.flac`/`.aiff` →
convertible, anything else → ignored. -/
inductive FileKind where
  | passthroughAudio
  | convertibleAudio
  | ignored
deriving DecidableEq

def classify (f : String) : FileKind :=
  if pyEndsWith f ".wav" then .passthroughAudio
  else if pyEndsWith f ".flac" || pyEndsWith f ".aiff" then .convertibleAudio
  else .ignored

/-- Contents of the converted folder: target filename paired with a content
tag. -/
abbrev FS := List (String × Nat)

/-- `os.path.exists(os.path.join(converted_folder, name))`. -/
def FS.hasFile (fs : FS) (name : String) : Bool :=
  fs.any (fun kv => kv.1 == name)

/-- Writing a new file `name` with content `v` into the converted folder. -/
def FS.write (fs : FS) (name : String) (v : Nat) : FS :=
  (name, v) :: fs

/-- Run statistics (src/main.py lines 79-84); `file_count` is kept separately
since it is computed once from the listing length. -/
structure Stats where
  checked : Nat := 0
  copied : Nat := 0
  converted : Nat := 0
  skipped : Nat := 0
  errored : Nat := 0
  errorFiles : List String := []
deriving DecidableEq

def Stats.zero : Stats := {}

/-- Sum of the outcome counters. -/
def statSum (st : Stats) : Nat :=
  st.copied + st.converted + st.skipped + st.errored

/-- Observable filesystem side effects of the scan loop: a `shutil.copy2`
call (line 100) or a transcoder subprocess invocation (line 120), each
recorded with source and target filename. -/
inductive Effect where
  | copyFile (srcName dstName : String)
  | transcodeCall (srcName dstName : String)
deriving DecidableEq

def Effect.srcName : Effect → String
  | .copyFile s _ => s
  | .transcodeCall s _ => s

/-- Outcome of one transcoder invocation, as seen by the caller: the exit
code returned by `subprocess.call`, or a `KeyboardInterrupt` raised while
the call is in progress. -/
inductive TEvent where
  | exits (code : Nat)
  | interrupt
deriving DecidableEq

/-- Result of processing one directory entry: continue with the next entry,
or abort the scan (the `except KeyboardInterrupt` branch, lines 128-139). -/
inductive EntryResult where
  | cont (st : Stats) (fs : FS) (effs : List Effect)
  | interrupted (st : Stats) (fs : FS) (effs : List Effect)
deriving DecidableEq

/-- Processing of one directory entry by the scan loop of `src/main.py`
(lines 89-145).  `src` gives a source file's content, `out` the transcoder's
output content for a source file. -/
def processEntry (src out : String → Nat) (st : Stats) (fs : FS)
    (f : String) (ev : TEvent) : EntryResult :=
  if pyEndsWith f ".wav" then
    -- lines 90-105
    let st := { st with checked := st.checked + 1 }
    if fs.hasFile f then
      .cont { st with skipped := st.skipped + 1 } fs []
    else
      .cont { st with copied := st.copied + 1 }
        (fs.write f (src f)) [.copyFile f f]
  else if pyEndsWith f ".flac" || pyEndsWith f ".aiff" then
    -- lines 107-145
    let st := { st with checked := st.checked + 1 }
    let tgt := targetName f
    if fs.hasFile tgt then
      .cont { st with skipped := st.skipped + 1 } fs []
    else
      match ev with
      | .interrupt => .interrupted st fs [.transcodeCall f tgt]
      | .exits c =>
        -- the exit code `c` is discarded by the source (line 120), so
        -- `converter_count` is incremented on every completed call
        .cont { st with converted := st.converted + 1 }
          (if c = 0 then fs.write tgt (out f) else fs)
          [.transcodeCall f tgt]
  else
    .cont st fs []

/-- Accumulated result of the scan loop. -/
structure LoopResult where
  stats : Stats
  fs : FS
  effects : List Effect
  interrupted : Bool
deriving DecidableEq

/-- The scan loop of `src/main.py` (lines 89-145) over a directory listing;
each entry is paired with the transcoder event its invocation would
produce.  An interrupt aborts the remaining scan immediately. -/
def mainLoop (src out : String → Nat) (st : Stats) (fs : FS) :
    List (String × TEvent) → LoopResult
  | [] => ⟨st, fs, [], false⟩
  | (f, ev) :: rest =>
    match processEntry src out st fs f ev with
    | .cont st' fs' effs =>
      let r := mainLoop src out st' fs' rest
      ⟨r.stats, r.fs, effs ++ r.effects, r.interrupted⟩
    | .interrupted st' fs' effs => ⟨st', fs', effs, true⟩

/-- Errors raised by the validation step: Python `FileNotFoundError`
(line 57; the spec's NotFoundError) and `ValueError` (line 59; the spec's
NotADirectoryError). -/
inductive PyError where
  | fileNotFound
  | valueError
deriving DecidableEq

/-- The final report (lines 131-138 and 150-157): the file count computed at
line 78, the counters, and — only when `error_count > 0` — the list of
errored filenames. -/
structure Summary where
  total : Nat
  stats : Stats
  erroredLine : Option (List String)
deriving DecidableEq

def mkSummary (total : Nat) (st : Stats) : Summary :=
  ⟨total, st, if st.errored > 0 then some st.errorFiles else none⟩

/-- How a run of `main` in `src/main.py` ends. -/
inductive Outcome where
  | error (e : PyError)
  | earlyNoMusic
  | finished (s : Summary)
  | interruptedRun (s : Summary)
deriving DecidableEq

/-- The return value of `main`: `some 0` on every `return 0` path, `none`
when an error is raised. -/
def returnCode : Outcome → Option Nat
  | .error _ => none
  | .earlyNoMusic => some 0
  | .finished _ => some 0
  | .interruptedRun _ => some 0

/-- Full observable result of a run: how it ended, the converted folder's
final contents, the filesystem effects of the scan, whether `os.makedirs`
was called, and the derived output-folder path (when the run got that far). -/
structure RunResult where
  outcome : Outcome
  fs : FS
  effects : List Effect
  madeDirs : Bool
  outputFolder : Option String
deriving DecidableEq

/-- The `main` function of `src/main.py` (lines 35-160).
`inputExists` and `isInputDir` are `os.path.exists` / `os.path.isdir` on the
input path; `convFolderExists` is `os.path.exists` on the derived converted
folder; `fs0` is that folder's contents at run start. -/
def mainRun (src out : String → Nat) (musicFolder : String)
    (inputExists isInputDir convFolderExists : Bool)
    (listing : List (String × TEvent)) (fs0 : FS) : RunResult :=
  if !inputExists then
    -- line 57: raise FileNotFoundError, before any side effect
    ⟨.error .fileNotFound, fs0, [], false, none⟩
  else if !isInputDir then
    -- line 59: raise ValueError, before any side effect
    ⟨.error .valueError, fs0, [], false, none⟩
  else if !(listing.any fun e => isMusicName e.1) then
    -- lines 62-64: nothing to do, return 0 before creating the folder
    ⟨.earlyNoMusic, fs0, [], false, none⟩
  else
    -- lines 67-74: derive the converted folder and create it if absent
    let made := !convFolderExists
    -- line 78: file_count excludes the converted folder itself
    let fileCount := listing.length - 1
    let r := mainLoop src out Stats.zero fs0 listing
    if r.interrupted then
      ⟨.interruptedRun (mkSummary fileCount r.stats), r.fs, r.effects, made,
        some (convFolderPath musicFolder)⟩
    else
      ⟨.finished (mkSummary fileCount r.stats), r.fs, r.effects, made,
        some (convFolderPath musicFolder)⟩

/-- Processing of one directory entry by the loop of
`src/formatter/main.py` (lines 70-94): only `.flac` entries are considered;
`ffmpeg` is invoked through `ffmpeg-python`, whose `run` raises
`ffmpeg.Error` when the tool fails, so here failures are caught (`ok` is the
success of the invocation). -/
def fmtProcessEntry (out : String → Nat) (st : Stats) (fs : FS)
    (f : String) (ok : Bool) : Stats × FS × List Effect :=
  if pyEndsWith f ".flac" then
    let st := { st with checked := st.checked + 1 }
    let tgt := targetName f
    if fs.hasFile tgt then
      ({ st with skipped := st.skipped + 1 }, fs, [])
    else if ok then
      ({ st with converted := st.converted + 1 },
        fs.write tgt (out f), [.transcodeCall f tgt])
    else
      ({ st with errored := st.errored + 1,
                 errorFiles := st.errorFiles ++ [f] },
        fs, [.transcodeCall f tgt])
  else
    (st, fs, [])

/-- The scan loop of `src/formatter/main.py` (lines 70-94); there is no
interrupt handling in this variant. -/
def fmtLoop (out : String → Nat) (st : Stats) (fs : FS) :
    List (String × Bool) → Stats × FS × List Effect
  | [] => (st, fs, [])
  | (f, ok) :: rest =>
    let (st', fs', effs) := fmtProcessEntry out st fs f ok
    let (st'', fs'', effs') := fmtLoop out st' fs' rest
    (st'', fs'', effs ++ effs')

/-- The spec's normalization, modelled from the spec: "normalizing any
trailing separator first so basename extraction is correct" — every trailing
separator is removed. -/
def stripAllTrailingSlash (p : String) : String :=
  ⟨(p.data.reverse.dropWhile (fun c => c == '/')).reverse⟩

/-- Modelled from the spec: the output folder's name,
`"<basename(input)>_wav"` where `basename` is extracted after normalizing
the trailing separators off the input path. -/
def specOutputFolderName (p : String) : String :=
  basename (stripAllTrailingSlash p) ++ "_wav"

def EntryResult.stats : EntryResult → Stats
  | .cont st _ _ => st
  | .interrupted st _ _ => st

def EntryResult.fs : EntryResult → FS
  | .cont _ fs _ => fs
  | .interrupted _ fs _ => fs

def EntryResult.effects : EntryResult → List Effect
  | .cont _ _ effs => effs
  | .interrupted _ _ effs => effs

/-- Whether the entry's processing aborted the scan. -/
def EntryResult.isStop : EntryResult → Bool
  | .cont _ _ _ => false
  | .interrupted _ _ _ => true

theorem hasFile_write (fs : FS) (n : String) (v : Nat) (t : String) :
    (fs.write n v).hasFile t = ((n == t) || fs.hasFile t) := rfl

theorem hasFile_write_self (fs : FS) (n : String) (v : Nat) :
    (fs.write n v).hasFile n = true := by
  simp [hasFile_write]

/-- When the entry is counted (a music extension) and its target already
exists, the dispatcher's only action is to count it as checked and skipped
(src/main.py lines 92-97 and 108-115). -/
theorem processEntry_skip (src out : String → Nat) (st : Stats) (fs : FS)
    (f : String) (ev : TEvent)
    (hk : isMusicName f = true) (he : fs.hasFile (tgtOf f) = true) :
    processEntry src out st fs f ev =
      .cont { st with checked := st.checked + 1, skipped := st.skipped + 1 }
        fs [] := by
  unfold isMusicName at hk
  unfold tgtOf at he
  unfold processEntry
  cases hw : pyEndsWith f ".wav" with
  | true =>
    simp only [hw] at he
    simp at he
    simp [hw, he]
  | false =>
    simp only [hw] at he hk
    simp at he
    simp only [Bool.false_or] at hk
    simp [hw, hk, he]

/-- Files already present in the converted folder stay present through the
processing of any entry. -/
theorem processEntry_fs_mono (src out : String → Nat) (st : Stats) (fs : FS)
    (f : String) (ev : TEvent) (t : String) (h : fs.hasFile t = true) :
    (processEntry src out st fs f ev).fs.hasFile t = true := by
  unfold processEntry
  cases hw : pyEndsWith f ".wav" with
  | true =>
    cases hf : fs.hasFile f with
    | true => simp [hw, hf, EntryResult.fs, h]
    | false => simp [hw, hf, EntryResult.fs, hasFile_write, h]
  | false =>
    cases hfa : (pyEndsWith f ".flac" || pyEndsWith f ".aiff") with
    | false => simp [hw, hfa, EntryResult.fs, h]
    | true =>
      cases ht : fs.hasFile (targetName f) with
      | true => simp [hw, hfa, ht, EntryResult.fs, h]
      | false =>
        cases ev with
        | interrupt => simp [hw, hfa, ht, EntryResult.fs, h]
        | exits c =>
          by_cases hc : c = 0
          · simp [hw, hfa, ht, hc, EntryResult.fs, hasFile_write, h]
          · simp [hw, hfa, ht, hc, EntryResult.fs, h]

/-- Entries with no music extension are not processed at all
(src/main.py: no branch of the loop matches). -/
theorem processEntry_ignored (src out : String → Nat) (st : Stats) (fs : FS)
    (f : String) (ev : TEvent) (hk : isMusicName f = false) :
    processEntry src out st fs f ev = .cont st fs [] := by
  unfold isMusicName at hk
  simp only [Bool.or_eq_false_iff] at hk
  unfold processEntry
  simp [hk.1.1, hk.1.2, hk.2]

/-- A transcode that exits with status 0 never aborts the scan, and leaves
the entry's target present in the converted folder. -/
theorem processEntry_exits0_target (src out : String → Nat) (st : Stats)
    (fs : FS) (f : String) :
    (processEntry src out st fs f (TEvent.exits 0)).isStop = false ∧
    (isMusicName f = true →
      ((processEntry src out st fs f (TEvent.exits 0)).fs).hasFile (tgtOf f)
        = true) := by
  unfold processEntry isMusicName tgtOf
  cases hw : pyEndsWith f ".wav" with
  | true =>
    cases hf : fs.hasFile f with
    | true => simp [hw, hf, EntryResult.isStop, EntryResult.fs]
    | false =>
      simp [hw, hf, EntryResult.isStop, EntryResult.fs, hasFile_write]
  | false =>
    cases hfa : (pyEndsWith f ".flac" || pyEndsWith f ".aiff") with
    | false => simp [hw, hfa, EntryResult.isStop, EntryResult.fs]
    | true =>
      cases ht : fs.hasFile (targetName f) with
      | true => simp [hw, hfa, ht, EntryResult.isStop, EntryResult.fs]
      | false =>
        simp [hw, hfa, ht, EntryResult.isStop, EntryResult.fs, hasFile_write]

/-- Files present in the converted folder stay present through the rest of
the scan. -/
theorem mainLoop_fs_mono (src out : String → Nat)
    (es : List (String × TEvent)) :
    ∀ (st : Stats) (fs : FS) (t : String), fs.hasFile t = true →
      ((mainLoop src out st fs es).fs).hasFile t = true := by
  induction es with
  | nil =>
    intro st fs t h
    simpa [mainLoop]
  | cons q rest ih =>
    intro st fs t h
    obtain ⟨f, ev⟩ := q
    have hm := processEntry_fs_mono src out st fs f ev t h
    unfold mainLoop
    cases hpe : processEntry src out st fs f ev with
    | cont st' fs' effs =>
      rw [hpe] at hm
      simp only [EntryResult.fs] at hm
      simpa using ih st' fs' t hm
    | interrupted st' fs' effs =>
      rw [hpe] at hm
      simpa [EntryResult.fs] using hm

/-- A scan in which every transcoder invocation exits with status 0 is never
interrupted, and afterwards every counted entry's target file is present in
the converted folder. -/
theorem mainLoop_success_targets (src out : String → Nat)
    (es : List (String × TEvent)) :
    ∀ (st : Stats) (fs : FS), (∀ p ∈ es, p.2 = TEvent.exits 0) →
      (mainLoop src out st fs es).interrupted = false ∧
      ∀ p ∈ es, isMusicName p.1 = true →
        ((mainLoop src out st fs es).fs).hasFile (tgtOf p.1) = true := by
  induction es with
  | nil =>
    intro st fs _
    simp [mainLoop]
  | cons q rest ih =>
    intro st fs hev
    obtain ⟨f, ev⟩ := q
    have hev0 : ev = TEvent.exits 0 := hev (f, ev) (List.mem_cons_self _ _)
    subst hev0
    have hpt := processEntry_exits0_target src out st fs f
    unfold mainLoop
    cases hpe : processEntry src out st fs f (TEvent.exits 0) with
    | cont st' fs' effs =>
      rw [hpe] at hpt
      simp only [EntryResult.isStop, EntryResult.fs] at hpt
      have hrest := ih st' fs'
        (fun p hp => hev p (List.mem_cons_of_mem _ hp))
      refine ⟨by simpa using hrest.1, ?_⟩
      intro p hp hk
      rcases List.mem_cons.mp hp with hpf | hpr
      · subst hpf
        simpa using mainLoop_fs_mono src out rest st' fs' _ (hpt.2 hk)
      · simpa using hrest.2 p hpr hk
    | interrupted st' fs' effs =>
      rw [hpe] at hpt
      simp [EntryResult.isStop] at hpt

/-- A scan over entries whose targets are all already present only counts
and skips: no effect, no filesystem change, no interrupt, and the checked
and skipped counters advance in lockstep. -/
theorem mainLoop_all_skip (src out : String → Nat)
    (es : List (String × TEvent)) :
    ∀ (st : Stats) (fs : FS),
      (∀ p ∈ es, isMusicName p.1 = true → fs.hasFile (tgtOf p.1) = true) →
      (mainLoop src out st fs es).fs = fs ∧
      (mainLoop src out st fs es).effects = [] ∧
      (mainLoop src out st fs es).interrupted = false ∧
      (mainLoop src out st fs es).stats.copied = st.copied ∧
      (mainLoop src out st fs es).stats.converted = st.converted ∧
      (mainLoop src out st fs es).stats.errored = st.errored ∧
      (mainLoop src out st fs es).stats.checked + st.skipped =
        (mainLoop src out st fs es).stats.skipped + st.checked := by
  induction es with
  | nil =>
    intro st fs _
    simp [mainLoop]
    omega
  | cons q rest ih =>
    intro st fs hall
    obtain ⟨f, ev⟩ := q
    cases hk : isMusicName f with
    | true =>
      have he := hall (f, ev) (List.mem_cons_self _ _) hk
      have hpe := processEntry_skip src out st fs f ev hk he
      unfold mainLoop
      rw [hpe]
      have hrest := ih
        { st with checked := st.checked + 1, skipped := st.skipped + 1 } fs
        (fun p hp h => hall p (List.mem_cons_of_mem _ hp) h)
      refine ⟨by simpa using hrest.1, by simpa using hrest.2.1,
        by simpa using hrest.2.2.1, by simpa using hrest.2.2.2.1,
        by simpa using hrest.2.2.2.2.1, by simpa using hrest.2.2.2.2.2.1, ?_⟩
      have harith := hrest.2.2.2.2.2.2
      simp only [] at harith ⊢
      omega
    | false =>
      have hpe := processEntry_ignored src out st fs f ev hk
      unfold mainLoop
      rw [hpe]
      have hrest := ih st fs (fun p hp h => hall p (List.mem_cons_of_mem _ hp) h)
      simpa using hrest

/-- Every effect emitted while processing an entry names that entry as its
source. -/
theorem processEntry_effects_src (src out : String → Nat) (st : Stats)
    (fs : FS) (f : String) (ev : TEvent) :
    ∀ e ∈ (processEntry src out st fs f ev).effects, e.srcName = f := by
  unfold processEntry
  cases hw : pyEndsWith f ".wav" with
  | true =>
    cases hf : fs.hasFile f with
    | true => simp [hw, hf, EntryResult.effects]
    | false => simp [hw, hf, EntryResult.effects, Effect.srcName]
  | false =>
    cases hfa : (pyEndsWith f ".flac" || pyEndsWith f ".aiff") with
    | false => simp [hw, hfa, EntryResult.effects]
    | true =>
      cases ht : fs.hasFile (targetName f) with
      | true => simp [hw, hfa, ht, EntryResult.effects]
      | false =>
        cases ev with
        | interrupt =>
          simp [hw, hfa, ht, EntryResult.effects, Effect.srcName]
        | exits c =>
          simp [hw, hfa, ht, EntryResult.effects, Effect.srcName]

/-- Processing one entry performs at most one filesystem action. -/
theorem processEntry_effects_len (src out : String → Nat) (st : Stats)
    (fs : FS) (f : String) (ev : TEvent) :
    (processEntry src out st fs f ev).effects.length ≤ 1 := by
  unfold processEntry
  cases hw : pyEndsWith f ".wav" with
  | true =>
    cases hf : fs.hasFile f with
    | true => simp [hw, hf, EntryResult.effects]
    | false => simp [hw, hf, EntryResult.effects]
  | false =>
    cases hfa : (pyEndsWith f ".flac" || pyEndsWith f ".aiff") with
    | false => simp [hw, hfa, EntryResult.effects]
    | true =>
      cases ht : fs.hasFile (targetName f) with
      | true => simp [hw, hfa, ht, EntryResult.effects]
      | false =>
        cases ev with
        | interrupt => simp [hw, hfa, ht, EntryResult.effects]
        | exits c => simp [hw, hfa, ht, EntryResult.effects]

/-- A filename that never appears in the remaining listing is the source of
no effect of the remaining scan. -/
theorem mainLoop_src_countP_zero (src out : String → Nat)
    (es : List (String × TEvent)) :
    ∀ (st : Stats) (fs : FS) (f : String),
      (es.map Prod.fst).count f = 0 →
      ((mainLoop src out st fs es).effects.countP
        (fun e => e.srcName == f)) = 0 := by
  induction es with
  | nil =>
    intro st fs f _
    simp [mainLoop]
  | cons q rest ih =>
    intro st fs f h
    obtain ⟨g, ev⟩ := q
    simp only [List.map_cons, List.count_cons] at h
    have hgf : (g == f) = false := by
      by_contra hc
      simp only [Bool.not_eq_false] at hc
      simp [hc] at h
    have hrest : ((rest.map Prod.fst).count f) = 0 := by omega
    have hz : (processEntry src out st fs g ev).effects.countP
        (fun e => e.srcName == f) = 0 := by
      refine List.countP_eq_zero.mpr ?_
      intro e he
      have := processEntry_effects_src src out st fs g ev e he
      simp [this, hgf]
    unfold mainLoop
    cases hpe : processEntry src out st fs g ev with
    | cont st' fs' effs =>
      rw [hpe] at hz
      simp only [EntryResult.effects] at hz
      simp [List.countP_append, hz, ih st' fs' f hrest]
    | interrupted st' fs' effs =>
      rw [hpe] at hz
      simpa [EntryResult.effects] using hz

/-- A filename occurring at most once in the listing is the source of at
most one effect of the scan. -/
theorem mainLoop_src_countP_le (src out : String → Nat)
    (es : List (String × TEvent)) :
    ∀ (st : Stats) (fs : FS) (f : String),
      (es.map Prod.fst).count f ≤ 1 →
      ((mainLoop src out st fs es).effects.countP
        (fun e => e.srcName == f)) ≤ 1 := by
  induction es with
  | nil =>
    intro st fs f _
    simp [mainLoop]
  | cons q rest ih =>
    intro st fs f h
    obtain ⟨g, ev⟩ := q
    simp only [List.map_cons, List.count_cons] at h
    have hlen : (processEntry src out st fs g ev).effects.countP
        (fun e => e.srcName == f) ≤ 1 :=
      le_trans (List.countP_le_length _) (processEntry_effects_len src out st fs g ev)
    unfold mainLoop
    cases hpe : processEntry src out st fs g ev with
    | cont st' fs' effs =>
      rw [hpe] at hlen
      simp only [EntryResult.effects] at hlen
      cases hgf : (g == f) with
      | true =>
        have hrest : ((rest.map Prod.fst).count f) = 0 := by
          rw [hgf] at h
          simp at h
          omega
        have hz := mainLoop_src_countP_zero src out rest st' fs' f hrest
        simp [List.countP_append, hz]
        omega
      | false =>
        have hz : effs.countP (fun e => e.srcName == f) = 0 := by
          refine List.countP_eq_zero.mpr ?_
          intro e he
          have hsrc := processEntry_effects_src src out st fs g ev e
          rw [hpe] at hsrc
          simp only [EntryResult.effects] at hsrc
          have hg := hsrc he
          rw [hg, hgf]
          simp
        have hrest : ((rest.map Prod.fst).count f) ≤ 1 := by
          rw [hgf] at h
          simp at h
          omega
        simp [List.countP_append, hz, ih st' fs' f hrest]
    | interrupted st' fs' effs =>
      rw [hpe] at hlen
      simpa [EntryResult.effects] using hlen

/-- One entry preserves the counter sum when it completes, and leaves
`checked` one ahead of the outcome counters when it aborts the scan (the
entry was counted at line 108 but its outcome never recorded). -/
theorem processEntry_sum (src out : String → Nat) (st : Stats) (fs : FS)
    (f : String) (ev : TEvent) (h : st.checked = statSum st) :
    ((processEntry src out st fs f ev).isStop = false →
      (processEntry src out st fs f ev).stats.checked =
        statSum (processEntry src out st fs f ev).stats) ∧
    ((processEntry src out st fs f ev).isStop = true →
      (processEntry src out st fs f ev).stats.checked =
        statSum (processEntry src out st fs f ev).stats + 1) := by
  unfold statSum at *
  unfold processEntry
  cases hw : pyEndsWith f ".wav" with
  | true =>
    cases hf : fs.hasFile f with
    | true =>
      simp [hw, hf, EntryResult.isStop, EntryResult.stats]
      omega
    | false =>
      simp [hw, hf, EntryResult.isStop, EntryResult.stats]
      omega
  | false =>
    cases hfa : (pyEndsWith f ".flac" || pyEndsWith f ".aiff") with
    | false => simp [hw, hfa, EntryResult.isStop, EntryResult.stats, h]
    | true =>
      cases ht : fs.hasFile (targetName f) with
      | true =>
        simp [hw, hfa, ht, EntryResult.isStop, EntryResult.stats]
        omega
      | false =>
        cases ev with
        | interrupt =>
          simp [hw, hfa, ht, EntryResult.isStop, EntryResult.stats]
          omega
        | exits c =>
          simp [hw, hfa, ht, EntryResult.isStop, EntryResult.stats]
          omega

/-- Counter-sum invariant of the scan loop: preserved while the scan keeps
going, off by exactly one in favour of `checked` when the scan was aborted
by an interrupt. -/
theorem mainLoop_sum (src out : String → Nat)
    (es : List (String × TEvent)) :
    ∀ (st : Stats) (fs : FS), st.checked = statSum st →
      ((mainLoop src out st fs es).interrupted = false →
        (mainLoop src out st fs es).stats.checked =
          statSum (mainLoop src out st fs es).stats) ∧
      ((mainLoop src out st fs es).interrupted = true →
        (mainLoop src out st fs es).stats.checked =
          statSum (mainLoop src out st fs es).stats + 1) := by
  induction es with
  | nil =>
    intro st fs h
    simp [mainLoop, h]
  | cons q rest ih =>
    intro st fs h
    obtain ⟨f, ev⟩ := q
    have hpt := processEntry_sum src out st fs f ev h
    unfold mainLoop
    cases hpe : processEntry src out st fs f ev with
    | cont st' fs' effs =>
      rw [hpe] at hpt
      simp only [EntryResult.isStop, EntryResult.stats] at hpt
      have h' : st'.checked = statSum st' := hpt.1 trivial
      simpa using ih st' fs' h'
    | interrupted st' fs' effs =>
      rw [hpe] at hpt
      simp only [EntryResult.isStop, EntryResult.stats] at hpt
      simpa using hpt.2 trivial

/-- The scan loop of `src/main.py` never touches the error counter or the
error list: `subprocess.call` returns its exit status instead of raising,
so the `except ffmpeg.Error` branch (lines 141-145) is unreachable. -/
theorem mainLoop_errored_const (src out : String → Nat)
    (es : List (String × TEvent)) :
    ∀ (st : Stats) (fs : FS),
      (mainLoop src out st fs es).stats.errored = st.errored ∧
      (mainLoop src out st fs es).stats.errorFiles = st.errorFiles := by
  induction es with
  | nil =>
    intro st fs
    simp [mainLoop]
  | cons q rest ih =>
    intro st fs
    obtain ⟨f, ev⟩ := q
    have hent : ∀ r : EntryResult, processEntry src out st fs f ev = r →
        r.stats.errored = st.errored ∧ r.stats.errorFiles = st.errorFiles := by
      intro r hr
      rw [← hr]
      unfold processEntry
      cases hw : pyEndsWith f ".wav" with
      | true =>
        cases hf : fs.hasFile f with
        | true => simp [hw, hf, EntryResult.stats]
        | false => simp [hw, hf, EntryResult.stats]
      | false =>
        cases hfa : (pyEndsWith f ".flac" || pyEndsWith f ".aiff") with
        | false => simp [hw, hfa, EntryResult.stats]
        | true =>
          cases ht : fs.hasFile (targetName f) with
          | true => simp [hw, hfa, ht, EntryResult.stats]
          | false =>
            cases ev with
            | interrupt => simp [hw, hfa, ht, EntryResult.stats]
            | exits c => simp [hw, hfa, ht, EntryResult.stats]
    unfold mainLoop
    cases hpe : processEntry src out st fs f ev with
    | cont st' fs' effs =>
      have h1 := hent _ hpe
      simp only [EntryResult.stats] at h1
      have h2 := ih st' fs'
      constructor
      · simpa [h1.1] using h2.1
      · simpa [h1.2] using h2.2
    | interrupted st' fs' effs =>
      have h1 := hent _ hpe
      simpa [EntryResult.stats] using h1

/-- One formatter entry preserves the counter sum (`checked` is incremented
exactly when one of skipped/converted/errored is). -/
theorem fmtEntry_sum (out : String → Nat) (st : Stats) (fs : FS)
    (f : String) (ok : Bool) (h : st.checked = statSum st) :
    (fmtProcessEntry out st fs f ok).1.checked =
      statSum (fmtProcessEntry out st fs f ok).1 := by
  unfold statSum at *
  unfold fmtProcessEntry
  cases hfl : pyEndsWith f ".flac" with
  | false => simpa [hfl] using h
  | true =>
    cases ht : fs.hasFile (targetName f) with
    | true =>
      simp [hfl, ht]
      omega
    | false =>
      cases ok with
      | true =>
        simp [hfl, ht]
        omega
      | false =>
        simp [hfl, ht]
        omega

/-- The formatter loop preserves the counter sum. -/
theorem fmtLoop_sum (out : String → Nat) (es : List (String × Bool)) :
    ∀ (st : Stats) (fs : FS), st.checked = statSum st →
      (fmtLoop out st fs es).1.checked = statSum (fmtLoop out st fs es).1 := by
  induction es with
  | nil =>
    intro st fs h
    simpa [fmtLoop]
  | cons q rest ih =>
    intro st fs h
    obtain ⟨f, ok⟩ := q
    have he := fmtEntry_sum out st fs f ok h
    unfold fmtLoop
    cases hq : fmtProcessEntry out st fs f ok with
    | mk st' p2 =>
      obtain ⟨fs', effs⟩ := p2
      rw [hq] at he
      simpa using ih st' fs' he

/-- One formatter entry either leaves the error fields alone or appends the
entry's filename while incrementing `errored` (lines 90-93). -/
theorem fmtEntry_error_shape (out : String → Nat) (st : Stats) (fs : FS)
    (f : String) (ok : Bool) :
    ((fmtProcessEntry out st fs f ok).1.errorFiles = st.errorFiles ∧
      (fmtProcessEntry out st fs f ok).1.errored = st.errored) ∨
    ((fmtProcessEntry out st fs f ok).1.errorFiles = st.errorFiles ++ [f] ∧
      (fmtProcessEntry out st fs f ok).1.errored = st.errored + 1) := by
  unfold fmtProcessEntry
  cases hfl : pyEndsWith f ".flac" with
  | false =>
    left
    simp [hfl]
  | true =>
    cases ht : fs.hasFile (targetName f) with
    | true =>
      left
      simp [hfl, ht]
    | false =>
      cases ok with
      | true =>
        left
        simp [hfl, ht]
      | false =>
        right
        simp [hfl, ht]

/-- Error bookkeeping of the formatter loop: the error list's length always
matches `errored`, and the run only appends to it, the appended names being
a subsequence of the processed entries in order. -/
theorem fmtLoop_errorFiles (out : String → Nat) (es : List (String × Bool)) :
    ∀ (st : Stats) (fs : FS), st.errorFiles.length = st.errored →
      (fmtLoop out st fs es).1.errorFiles.length =
        (fmtLoop out st fs es).1.errored ∧
      ∃ l, (fmtLoop out st fs es).1.errorFiles = st.errorFiles ++ l ∧
        l.Sublist (es.map Prod.fst) := by
  induction es with
  | nil =>
    intro st fs h
    refine ⟨by simpa [fmtLoop], [], by simp [fmtLoop], List.nil_sublist _⟩
  | cons q rest ih =>
    intro st fs h
    obtain ⟨f, ok⟩ := q
    have hsh := fmtEntry_error_shape out st fs f ok
    unfold fmtLoop
    cases hq : fmtProcessEntry out st fs f ok with
    | mk st' p2 =>
      obtain ⟨fs', effs⟩ := p2
      rw [hq] at hsh
      simp only [] at hsh
      rcases hsh with ⟨he1, he2⟩ | ⟨he1, he2⟩
      · have hlen' : st'.errorFiles.length = st'.errored := by
          rw [he1, he2]
          exact h
        have hr := ih st' fs' hlen'
        refine ⟨by simpa using hr.1, ?_⟩
        obtain ⟨l, hl1, hl2⟩ := hr.2
        refine ⟨l, ?_, ?_⟩
        · simpa [he1] using hl1
        · simpa using hl2.cons f
      · have hlen' : st'.errorFiles.length = st'.errored := by
          rw [he1, he2]
          simp [h]
        have hr := ih st' fs' hlen'
        refine ⟨by simpa using hr.1, ?_⟩
        obtain ⟨l, hl1, hl2⟩ := hr.2
        refine ⟨f :: l, ?_, ?_⟩
        · rw [he1] at hl1
          simpa [List.append_assoc] using hl1
        · simpa using hl2.cons₂ f

theorem string_eta (p : String) : (⟨p.data⟩ : String) = p := rfl

/-- A string ends with `'/'` exactly when its reversed character list starts
with `'/'`. -/
theorem pyEndsWith_slash_iff (p : String) :
    pyEndsWith p "/" = true ↔ ∃ xs, p.data.reverse = '/' :: xs := by
  unfold pyEndsWith
  have hd : ("/" : String).data.reverse = ['/'] := rfl
  rw [hd]
  cases hr : p.data.reverse with
  | nil => simp [List.isPrefixOf]
  | cons x xs =>
    simp [List.isPrefixOf]
    exact eq_comm

/-- Dropping leading slashes from a list that does not start with one is the
identity. -/
theorem dropWhile_slash_of_no_head (l : List Char)
    (h : ¬∃ ys, l = '/' :: ys) :
    l.dropWhile (fun c => c == '/') = l := by
  cases l with
  | nil => rfl
  | cons y ys =>
    have hy : (y == '/') = false := by
      by_contra hc
      simp only [Bool.not_eq_false, beq_iff_eq] at hc
      exact h ⟨ys, by rw [hc]⟩
    simp [List.dropWhile_cons, hy]

/-- When stripping one trailing slash already leaves none (the input has at
most one trailing separator), the code's one-slash strip agrees with the
spec's full normalization. -/
theorem stripAll_eq_stripOne (p : String)
    (h : pyEndsWith (stripTrailingSlash p) "/" = false) :
    stripAllTrailingSlash p = stripTrailingSlash p := by
  unfold stripAllTrailingSlash
  cases hp : pyEndsWith p "/" with
  | false =>
    have hone : stripTrailingSlash p = p := by
      unfold stripTrailingSlash
      simp [hp]
    rw [hone]
    have hno : ¬∃ xs, p.data.reverse = '/' :: xs := by
      intro hex
      rw [(pyEndsWith_slash_iff p).mpr hex] at hp
      exact Bool.true_eq_false.mp hp
    rw [dropWhile_slash_of_no_head _ hno]
    rw [List.reverse_reverse]
  | true =>
    obtain ⟨xs, hr⟩ := (pyEndsWith_slash_iff p).mp hp
    have hdata : p.data = xs.reverse ++ ['/'] := by
      have := congrArg List.reverse hr
      simpa using this
    have hone : stripTrailingSlash p = ⟨xs.reverse⟩ := by
      unfold stripTrailingSlash
      rw [if_pos hp, hdata, List.dropLast_concat]
    rw [hone] at h ⊢
    have hno : ¬∃ ys, xs = '/' :: ys := by
      intro ⟨ys, hy⟩
      have : pyEndsWith (⟨xs.reverse⟩ : String) "/" = true := by
        refine (pyEndsWith_slash_iff _).mpr ⟨ys, ?_⟩
        show xs.reverse.reverse = '/' :: ys
        rw [List.reverse_reverse, hy]
      rw [this] at h
      exact Bool.true_eq_false.mp h
    rw [hr]
    have hsl : (('/' : Char) == '/') = true := rfl
    simp [List.dropWhile_cons, hsl, dropWhile_slash_of_no_head xs hno]

/-- Concrete source-content assignment used by closed instances. -/
def cSrc : String → Nat := fun _ => 1

/-- Concrete transcoder-output assignment used by closed instances. -/
def cOut : String → Nat := fun _ => 2

/-- C1: for every directory entry whose derived target path already exists
in the converted folder, the dispatcher increments only `checked` and
`skipped`, performs no copy and no transcoder invocation, and leaves the
converted folder — in particular the existing target file's content —
unchanged; moreover, in a scan over a listing in which a source filename
occurs at most once, that source file is the source of at most one
filesystem effect, so at most one target file is ever produced for it. -/
theorem C1_skip_frame_and_unique_target :
    (∀ (src out : String → Nat) (st : Stats) (fs : FS) (f : String)
        (ev : TEvent), isMusicName f = true → fs.hasFile (tgtOf f) = true →
      processEntry src out st fs f ev =
        .cont { st with checked := st.checked + 1, skipped := st.skipped + 1 }
          fs []) ∧
    (∀ (src out : String → Nat) (st : Stats) (fs : FS)
        (es : List (String × TEvent)) (f : String),
      (es.map Prod.fst).count f ≤ 1 →
      ((mainLoop src out st fs es).effects.countP
        (fun e => e.srcName == f)) ≤ 1) :=
  ⟨processEntry_skip,
   fun src out st fs es f h => mainLoop_src_countP_le src out es st fs f h⟩

theorem C1_witness :
    isMusicName "a.wav" = true ∧
    FS.hasFile [("a.wav", 7)] (tgtOf "a.wav") = true ∧
    processEntry cSrc cOut Stats.zero [("a.wav", 7)] "a.wav"
        (TEvent.exits 0) =
      .cont { checked := 1, skipped := 1 } [("a.wav", 7)] [] :=
  ⟨by decide, by decide,
    C1_skip_frame_and_unique_target.1 cSrc cOut Stats.zero
      [("a.wav", 7)] "a.wav" (TEvent.exits 0) (by decide) (by decide)⟩

/-- C2 counterexample: a run interrupted during the transcoding of
`a.flac` ends with `checked = 1` but `copied + converted + skipped +
errored = 0` in the emitted summary, so the claimed invariant does not hold
after an interruption. -/
theorem C2_counterexample :
    (mainRun cSrc cOut "m" true true false
        [("a.flac", TEvent.interrupt)] []).outcome =
      Outcome.interruptedRun (mkSummary 0 { checked := 1 }) ∧
    ¬((mkSummary 0 { checked := 1 }).stats.checked =
        statSum (mkSummary 0 { checked := 1 }).stats) := by
  constructor
  · decide
  · decide

/-- C2 amended: between any two directory entries and after a run that
completes normally, `checked = copied + converted + skipped + errored`
holds (in both program variants); when the scan is aborted by an interrupt
during a transcode, the in-flight entry has been counted in `checked` but
in no outcome counter, so at that point (and in the emitted summary)
`checked = copied + converted + skipped + errored + 1`. -/
theorem C2_sum_invariant_amended (src out : String → Nat) :
    (∀ (es : List (String × TEvent)) (st : Stats) (fs : FS),
        st.checked = statSum st →
        ((mainLoop src out st fs es).interrupted = false →
          (mainLoop src out st fs es).stats.checked =
            statSum (mainLoop src out st fs es).stats) ∧
        ((mainLoop src out st fs es).interrupted = true →
          (mainLoop src out st fs es).stats.checked =
            statSum (mainLoop src out st fs es).stats + 1)) ∧
    (∀ (es : List (String × Bool)) (st : Stats) (fs : FS),
        st.checked = statSum st →
        (fmtLoop out st fs es).1.checked = statSum (fmtLoop out st fs es).1) :=
  ⟨fun es st fs h => mainLoop_sum src out es st fs h,
   fun es st fs h => fmtLoop_sum out es st fs h⟩

theorem C2_amended_witness :
    Stats.zero.checked = statSum Stats.zero ∧
    ((mainLoop cSrc cOut Stats.zero []
        [("a.wav", TEvent.exits 0)]).interrupted = false →
      (mainLoop cSrc cOut Stats.zero []
        [("a.wav", TEvent.exits 0)]).stats.checked =
        statSum (mainLoop cSrc cOut Stats.zero []
          [("a.wav", TEvent.exits 0)]).stats) :=
  ⟨by decide,
    ((C2_sum_invariant_amended cSrc cOut).1 [("a.wav", TEvent.exits 0)]
      Stats.zero [] (by decide)).1⟩

/-- C3 at the failing input `"song.aiff"`: the classifier marks it
convertible, but the derived target filename is `"song.aiff"` — the
`.replace('.flac', '.wav')` call leaves an `.aiff` extension untouched, so
the target extension is not `.wav` as the spec states (for `.flac` inputs
the derivation behaves as specified). -/
theorem C3_aiff_target_eval :
    classify "song.aiff" = FileKind.convertibleAudio ∧
    tgtOf "song.aiff" = "song.aiff" ∧
    targetName "song.aiff" ≠ "song.wav" ∧
    classify "b.flac" = FileKind.convertibleAudio ∧
    targetName "b.flac" = "b.wav" := by
  refine ⟨by decide, by decide, by decide, by decide, by decide⟩

/-- C4 at the failing input: a transcoder invocation for `b.flac` that
exits with status 1 still increments `converted`, leaves `errored` at 0 and
the error list empty — `subprocess.call`'s exit status is discarded, the
`except ffmpeg.Error` handler being unreachable.  The formatter variant,
which invokes `ffmpeg` through `ffmpeg-python` (raising on failure),
behaves as the claim states. -/
theorem C4_exit_ignored_eval :
    mainLoop cSrc cOut Stats.zero [] [("b.flac", TEvent.exits 1)] =
      ⟨{ checked := 1, converted := 1 }, [],
        [Effect.transcodeCall "b.flac" "b.wav"], false⟩ ∧
    (fmtLoop cOut Stats.zero [] [("b.flac", false)]).1.errored = 1 ∧
    (fmtLoop cOut Stats.zero [] [("b.flac", false)]).1.errorFiles =
      ["b.flac"] ∧
    (fmtLoop cOut Stats.zero [] [("b.flac", false)]).1.converted = 0 := by
  refine ⟨by decide, by decide, by decide, by decide⟩

/-- C5: after a run in which every transcoder invocation succeeded, a
second run over the same listing performs no copy and no transcoder
invocation, leaves the converted folder unchanged, and ends with
`skipped = checked`. -/
theorem C5_idempotent_rerun (src out : String → Nat)
    (es : List (String × TEvent)) (fs0 : FS)
    (hev : ∀ p ∈ es, p.2 = TEvent.exits 0) :
    (mainLoop src out Stats.zero fs0 es).interrupted = false ∧
    (mainLoop src out Stats.zero
        (mainLoop src out Stats.zero fs0 es).fs es).effects = [] ∧
    (mainLoop src out Stats.zero
        (mainLoop src out Stats.zero fs0 es).fs es).fs =
      (mainLoop src out Stats.zero fs0 es).fs ∧
    (mainLoop src out Stats.zero
        (mainLoop src out Stats.zero fs0 es).fs es).interrupted = false ∧
    (mainLoop src out Stats.zero
        (mainLoop src out Stats.zero fs0 es).fs es).stats.skipped =
      (mainLoop src out Stats.zero
        (mainLoop src out Stats.zero fs0 es).fs es).stats.checked ∧
    (mainLoop src out Stats.zero
        (mainLoop src out Stats.zero fs0 es).fs es).stats.copied = 0 ∧
    (mainLoop src out Stats.zero
        (mainLoop src out Stats.zero fs0 es).fs es).stats.converted = 0 := by
  have h1 := mainLoop_success_targets src out es Stats.zero fs0 hev
  have h2 := mainLoop_all_skip src out es Stats.zero
    (mainLoop src out Stats.zero fs0 es).fs
    (fun p hp hk => h1.2 p hp hk)
  refine ⟨h1.1, h2.2.1, h2.1, h2.2.2.1, ?_, ?_, ?_⟩
  · have harith := h2.2.2.2.2.2.2
    have hz1 : Stats.zero.skipped = 0 := rfl
    have hz2 : Stats.zero.checked = 0 := rfl
    rw [hz1, hz2] at harith
    omega
  · have := h2.2.2.2.1
    rw [this]
    rfl
  · have := h2.2.2.2.2.1
    rw [this]
    rfl

theorem C5_witness :
    (mainLoop cSrc cOut Stats.zero []
        [("b.flac", TEvent.exits 0)]).interrupted = false ∧
    (mainLoop cSrc cOut Stats.zero
        (mainLoop cSrc cOut Stats.zero []
          [("b.flac", TEvent.exits 0)]).fs
        [("b.flac", TEvent.exits 0)]).effects = [] ∧
    (mainLoop cSrc cOut Stats.zero
        (mainLoop cSrc cOut Stats.zero []
          [("b.flac", TEvent.exits 0)]).fs
        [("b.flac", TEvent.exits 0)]).fs =
      (mainLoop cSrc cOut Stats.zero [] [("b.flac", TEvent.exits 0)]).fs ∧
    (mainLoop cSrc cOut Stats.zero
        (mainLoop cSrc cOut Stats.zero []
          [("b.flac", TEvent.exits 0)]).fs
        [("b.flac", TEvent.exits 0)]).interrupted = false ∧
    (mainLoop cSrc cOut Stats.zero
        (mainLoop cSrc cOut Stats.zero []
          [("b.flac", TEvent.exits 0)]).fs
        [("b.flac", TEvent.exits 0)]).stats.skipped =
      (mainLoop cSrc cOut Stats.zero
        (mainLoop cSrc cOut Stats.zero []
          [("b.flac", TEvent.exits 0)]).fs
        [("b.flac", TEvent.exits 0)]).stats.checked ∧
    (mainLoop cSrc cOut Stats.zero
        (mainLoop cSrc cOut Stats.zero []
          [("b.flac", TEvent.exits 0)]).fs
        [("b.flac", TEvent.exits 0)]).stats.copied = 0 ∧
    (mainLoop cSrc cOut Stats.zero
        (mainLoop cSrc cOut Stats.zero []
          [("b.flac", TEvent.exits 0)]).fs
        [("b.flac", TEvent.exits 0)]).stats.converted = 0 :=
  C5_idempotent_rerun cSrc cOut [("b.flac", TEvent.exits 0)] [] (by decide)

/-- C6: when no entry of the (existing, directory) input folder has a
recognized audio extension, the run returns early with the
nothing-to-do signal and success code 0, performing no effect, creating no
folder, and leaving the converted folder untouched; no counters are ever
created or touched on this path. -/
theorem C6_early_return_no_music (src out : String → Nat) (mf : String)
    (ce : Bool) (listing : List (String × TEvent)) (fs0 : FS)
    (h : (listing.any fun e => isMusicName e.1) = false) :
    mainRun src out mf true true ce listing fs0 =
      ⟨Outcome.earlyNoMusic, fs0, [], false, none⟩ ∧
    returnCode (mainRun src out mf true true ce listing fs0).outcome =
      some 0 := by
  have heq : mainRun src out mf true true ce listing fs0 =
      ⟨Outcome.earlyNoMusic, fs0, [], false, none⟩ := by
    unfold mainRun
    simp [h]
  exact ⟨heq, by rw [heq]; rfl⟩

theorem C6_witness :
    mainRun cSrc cOut "m" true true false [("c.txt", TEvent.exits 0)] [] =
      ⟨Outcome.earlyNoMusic, [], [], false, none⟩ ∧
    returnCode (mainRun cSrc cOut "m" true true false
      [("c.txt", TEvent.exits 0)] []).outcome = some 0 :=
  C6_early_return_no_music cSrc cOut "m" false
    [("c.txt", TEvent.exits 0)] [] (by decide)

/-- C7: an interrupt raised during the transcoding of an entry aborts the
remaining scan immediately (the rest of the listing is discarded and only
`checked` was advanced for the in-flight entry), and the run still emits
the summary built from the partial statistics — including the errored-file
line exactly when `errored > 0`, by construction of `mkSummary` — and
returns the success code 0 instead of propagating the interrupt. -/
theorem C7_interrupt_graceful :
    (∀ (src out : String → Nat) (st : Stats) (fs : FS) (f : String)
        (rest : List (String × TEvent)),
      pyEndsWith f ".wav" = false →
      (pyEndsWith f ".flac" || pyEndsWith f ".aiff") = true →
      fs.hasFile (targetName f) = false →
      mainLoop src out st fs ((f, TEvent.interrupt) :: rest) =
        ⟨{ st with checked := st.checked + 1 }, fs,
          [Effect.transcodeCall f (targetName f)], true⟩) ∧
    (∀ (src out : String → Nat) (mf : String) (ce : Bool)
        (listing : List (String × TEvent)) (fs0 : FS),
      (listing.any fun e => isMusicName e.1) = true →
      (mainLoop src out Stats.zero fs0 listing).interrupted = true →
      mainRun src out mf true true ce listing fs0 =
        ⟨Outcome.interruptedRun (mkSummary (listing.length - 1)
            (mainLoop src out Stats.zero fs0 listing).stats),
          (mainLoop src out Stats.zero fs0 listing).fs,
          (mainLoop src out Stats.zero fs0 listing).effects, !ce,
          some (convFolderPath mf)⟩ ∧
      returnCode (mainRun src out mf true true ce listing fs0).outcome =
        some 0) := by
  constructor
  · intro src out st fs f rest hw hfa ht
    have hpe : processEntry src out st fs f TEvent.interrupt =
        .interrupted { st with checked := st.checked + 1 } fs
          [Effect.transcodeCall f (targetName f)] := by
      unfold processEntry
      simp [hw, hfa, ht]
    unfold mainLoop
    rw [hpe]
  · intro src out mf ce listing fs0 hmusic hint
    have heq : mainRun src out mf true true ce listing fs0 =
        ⟨Outcome.interruptedRun (mkSummary (listing.length - 1)
            (mainLoop src out Stats.zero fs0 listing).stats),
          (mainLoop src out Stats.zero fs0 listing).fs,
          (mainLoop src out Stats.zero fs0 listing).effects, !ce,
          some (convFolderPath mf)⟩ := by
      unfold mainRun
      simp [hmusic, hint]
    exact ⟨heq, by rw [heq]; rfl⟩

theorem C7_witness :
    (mainLoop cSrc cOut Stats.zero [] [("a.flac", TEvent.interrupt)]).interrupted
        = true ∧
    mainRun cSrc cOut "m" true true false [("a.flac", TEvent.interrupt)] [] =
      ⟨Outcome.interruptedRun (mkSummary 0
          (mainLoop cSrc cOut Stats.zero []
            [("a.flac", TEvent.interrupt)]).stats),
        (mainLoop cSrc cOut Stats.zero [] [("a.flac", TEvent.interrupt)]).fs,
        (mainLoop cSrc cOut Stats.zero [] [("a.flac", TEvent.interrupt)]).effects,
        !false, some (convFolderPath "m")⟩ ∧
    returnCode (mainRun cSrc cOut "m" true true false
      [("a.flac", TEvent.interrupt)] []).outcome = some 0 :=
  ⟨by decide,
    (C7_interrupt_graceful.2 cSrc cOut "m" false
      [("a.flac", TEvent.interrupt)] [] (by decide) (by decide)).1,
    (C7_interrupt_graceful.2 cSrc cOut "m" false
      [("a.flac", TEvent.interrupt)] [] (by decide) (by decide)).2⟩

/-- C8: a missing input path makes the run fail with the not-found error
(Python `FileNotFoundError`, the spec's NotFoundError) and an existing
non-directory path with the not-a-directory error (Python `ValueError`, the
spec's NotADirectoryError), in both cases before any side effect: no
effect, no folder creation, the converted folder untouched, and no counters
ever created. -/
theorem C8_validation_before_effects (src out : String → Nat) (mf : String)
    (ce : Bool) (listing : List (String × TEvent)) (fs0 : FS) :
    (∀ b : Bool, mainRun src out mf false b ce listing fs0 =
      ⟨Outcome.error PyError.fileNotFound, fs0, [], false, none⟩) ∧
    mainRun src out mf true false ce listing fs0 =
      ⟨Outcome.error PyError.valueError, fs0, [], false, none⟩ := by
  constructor
  · intro b
    unfold mainRun
    simp
  · unfold mainRun
    simp

/-- C9 counterexample: the valid directory path `"foo//"` carries two
trailing separators; the code strips only one, so basename extraction
yields the empty string and the derived folder is named `"_wav"` instead of
`"foo_wav"` — normalization does not make basename extraction correct
here. -/
theorem C9_counterexample :
    convFolderName (stripTrailingSlash "foo//") = "_wav" ∧
    specOutputFolderName "foo//" = "foo_wav" ∧
    convFolderName (stripTrailingSlash "foo//") ≠
      specOutputFolderName "foo//" ∧
    convFolderPath "foo//" = "foo/_wav" := by
  refine ⟨by decide, by decide, by decide, by decide⟩

/-- C9 amended: the resolver strips at most one trailing separator; for
every input path that carries at most one trailing separator (stripping one
slash leaves none), the derived output-folder name agrees with the spec's
normalized `"<basename(input)>_wav"`, the run's derived output-folder path
is a deterministic function of the input path, and the folder is ensured
before scanning — `makedirs` is called exactly when the folder does not
already exist, so an existing folder causes no error. -/
theorem C9_output_folder_amended (p : String)
    (h : pyEndsWith (stripTrailingSlash p) "/" = false) :
    convFolderName (stripTrailingSlash p) = specOutputFolderName p ∧
    (∀ (src out : String → Nat) (ce : Bool)
        (listing : List (String × TEvent)) (fs0 : FS),
      (listing.any fun e => isMusicName e.1) = true →
      (mainRun src out p true true ce listing fs0).outputFolder =
        some (convFolderPath p) ∧
      (mainRun src out p true true ce listing fs0).madeDirs = (!ce)) := by
  constructor
  · unfold specOutputFolderName convFolderName
    rw [stripAll_eq_stripOne p h]
  · intro src out ce listing fs0 hmusic
    unfold mainRun
    simp [hmusic]
    cases hint : (mainLoop src out Stats.zero fs0 listing).interrupted with
    | true => simp [hint]
    | false => simp [hint]

theorem C9_witness :
    pyEndsWith (stripTrailingSlash "a/foo/") "/" = false ∧
    convFolderName (stripTrailingSlash "a/foo/") =
      specOutputFolderName "a/foo/" ∧
    (mainRun cSrc cOut "a/foo/" true true false
        [("a.wav", TEvent.exits 0)] []).outputFolder =
      some (convFolderPath "a/foo/") ∧
    (mainRun cSrc cOut "a/foo/" true true false
        [("a.wav", TEvent.exits 0)] []).madeDirs = (!false) :=
  ⟨by decide, (C9_output_folder_amended "a/foo/" (by decide)).1,
    ((C9_output_folder_amended "a/foo/" (by decide)).2 cSrc cOut false
      [("a.wav", TEvent.exits 0)] [] (by decide)).1,
    ((C9_output_folder_amended "a/foo/" (by decide)).2 cSrc cOut false
      [("a.wav", TEvent.exits 0)] [] (by decide)).2⟩

/-- C10: between any two directory entries the length of the errored-file
list equals the `errored` counter, and the list is append-only — the run
only ever appends to the starting list, the appended names forming a
subsequence of the processed entries in processing order.  This holds for
the formatter loop, where errors are recorded, and vacuously for the main
loop, whose error branch is unreachable. -/
theorem C10_error_list_invariant (src out : String → Nat) :
    (∀ (es : List (String × Bool)) (st : Stats) (fs : FS),
      st.errorFiles.length = st.errored →
      (fmtLoop out st fs es).1.errorFiles.length =
        (fmtLoop out st fs es).1.errored ∧
      ∃ l, (fmtLoop out st fs es).1.errorFiles = st.errorFiles ++ l ∧
        l.Sublist (es.map Prod.fst)) ∧
    (∀ (es : List (String × TEvent)) (st : Stats) (fs : FS),
      st.errorFiles.length = st.errored →
      (mainLoop src out st fs es).stats.errorFiles.length =
        (mainLoop src out st fs es).stats.errored ∧
      ∃ l, (mainLoop src out st fs es).stats.errorFiles =
          st.errorFiles ++ l ∧ l.Sublist (es.map Prod.fst)) := by
  constructor
  · intro es st fs h
    exact fmtLoop_errorFiles out es st fs h
  · intro es st fs h
    have hc := mainLoop_errored_const src out es st fs
    refine ⟨by rw [hc.1, hc.2]; exact h, [], by simp [hc.2], List.nil_sublist _⟩

theorem C10_witness :
    (fmtLoop cOut Stats.zero [] [("a.flac", false)]).1.errorFiles.length =
      (fmtLoop cOut Stats.zero [] [("a.flac", false)]).1.errored ∧
    ∃ l, (fmtLoop cOut Stats.zero [] [("a.flac", false)]).1.errorFiles =
        Stats.zero.errorFiles ++ l ∧
      l.Sublist ([("a.flac", false)].map Prod.fst) :=
  (C10_error_list_invariant cSrc cOut).1 [("a.flac", false)]
    Stats.zero [] (by decide)

end MusicBatch
